import Mathlib

/-!
Shallow embedding of the core of the repository, together with proofs about
the claims of its specification.

Covered source:

* `packages/types/src/metadata/MetadataVersioned.ts` — the versioned-metadata
  object with its lazy, cached chain of one-step migrations
  (`#assertVersion`, `#getVersion`, `asV9` .. `asV14`, `asLatest`,
  `asCallsOnly`, `toJSON`).
* the `StorageKey` module (hasher table `HASHER_MAP`, `decodeHashers`,
  `decodeArgsFromMeta`, `unwrapStorageSi`, `unwrapStorageType`,
  `StorageKey.setMeta`, `StorageKey.is`, construction).

The metadata schema payloads and the one-step migration transforms
(`toV10` .. `toV14`, `toLatest`, `toCallsOnly`) live in modules outside the
embedded dispatch logic and are opaque to it; they are therefore modelled as
parameters (a type `Meta` and a record `Transforms Meta` of pure functions),
exactly the way `MetadataVersioned` consumes them.  Every operation also
returns the list of one-step transforms it executed (identified by their
target version), so that statements about how often a transform runs are
expressible; the TypeScript exceptions become `Except String`.
-/

namespace MetadataVersionedModel

/-- The version keys of the conversion cache: a numbered version `9 .. 14`
or the string key `latest` (`MetaVersions` in the source). -/
inductive MetaVersion where
  | v (n : Nat)
  | latest
  deriving DecidableEq, Repr

/-- The registered pure one-step migration transforms, each taking the
previous-version value and the source version number (the source passes
`this.registry`, `this[asPrev]` and `this.version`; the registry is threaded
through unchanged and is omitted from the model). -/
structure Transforms (Meta : Type) where
  toV10 : Meta → Nat → Meta
  toV11 : Meta → Nat → Meta
  toV12 : Meta → Nat → Meta
  toV13 : Meta → Nat → Meta
  toV14 : Meta → Nat → Meta
  toLatest : Meta → Nat → Meta

/-- State of a `MetadataVersioned` instance: the decoded struct fields
(`magicNumber`, `metadata` — a version-tagged union whose tag is `metaIndex`
and whose payload is `metadata`) plus the private conversion cache
`#converted` (a `Map`, modelled as an insertion-ordered association list). -/
structure MetadataVersioned (Meta : Type) where
  magicNumber : Nat
  metadata : Meta
  metaIndex : Nat
  converted : List (MetaVersion × Meta)
  deriving DecidableEq, Repr

/-- Result of an accessor: the value, the updated instance state, and the
log of one-step transforms that were executed (by target version). -/
abbrev MVResult (Meta : Type) := Except String (Meta × MetadataVersioned Meta × List MetaVersion)

/-- The message of the version-downgrade assertion in `#assertVersion`. -/
def downgradeMsg (fromV toV : Nat) : String :=
  "Cannot convert metadata from version " ++ toString fromV ++ " to " ++ toString toV

variable {Meta : Type}

/-- Model of `#assertVersion`: throw unless `this.version <= version`, and report
whether `this.version === version`. -/
def assertVersion (m : MetadataVersioned Meta) (version : Nat) : Except String Bool :=
  if m.metaIndex ≤ version then Except.ok (decide (m.metaIndex = version))
  else Except.error (downgradeMsg m.metaIndex version)

/-- Lookup (`Map.get`) on the conversion cache. -/
def cacheGet (c : List (MetaVersion × Meta)) (k : MetaVersion) : Option Meta :=
  (c.find? (fun p => decide (p.1 = k))).map Prod.snd

/-- Model of `#getVersion(version, fromPrev)`: for a numbered target first run
`#assertVersion`; when the instance already is at the target, hand out the
embedded union payload; otherwise consult the cache and, on a miss, obtain
the previous version through the `asPrev` accessor (`prev`), apply
`fromPrev` to it and `this.version`, and store the result. -/
def getVersion (version : MetaVersion) (fromPrev : Meta → Nat → Meta)
    (prev : MetadataVersioned Meta → MVResult Meta)
    (m : MetadataVersioned Meta) : MVResult Meta :=
  match (match version with
         | MetaVersion.v n => assertVersion m n
         | MetaVersion.latest => Except.ok false) with
  | Except.error e => Except.error e
  | Except.ok isEq =>
    if isEq then Except.ok (m.metadata, m, [])
    else
      match cacheGet m.converted version with
      | some cached => Except.ok (cached, m, [])
      | none =>
        match prev m with
        | Except.error e => Except.error e
        | Except.ok (p, m1, log) =>
          let next := fromPrev p m.metaIndex
          Except.ok (next, { m1 with converted := m1.converted ++ [(version, next)] },
            log ++ [version])

/-- The `asV9` getter: `#assertVersion(9)` then the union payload (the
union's own `asV9` accessor fails when the tag is not `9`). -/
def asV9 (m : MetadataVersioned Meta) : MVResult Meta :=
  match assertVersion m 9 with
  | Except.error e => Except.error e
  | Except.ok _ =>
    if m.metaIndex = 9 then Except.ok (m.metadata, m, [])
    else Except.error "MetadataAll: conversion to V9 of a non-V9 value"

/-- The `asV10` getter. -/
def asV10 (t : Transforms Meta) : MetadataVersioned Meta → MVResult Meta :=
  getVersion (MetaVersion.v 10) t.toV10 asV9

/-- The `asV11` getter. -/
def asV11 (t : Transforms Meta) : MetadataVersioned Meta → MVResult Meta :=
  getVersion (MetaVersion.v 11) t.toV11 (asV10 t)

/-- The `asV12` getter. -/
def asV12 (t : Transforms Meta) : MetadataVersioned Meta → MVResult Meta :=
  getVersion (MetaVersion.v 12) t.toV12 (asV11 t)

/-- The `asV13` getter. -/
def asV13 (t : Transforms Meta) : MetadataVersioned Meta → MVResult Meta :=
  getVersion (MetaVersion.v 13) t.toV13 (asV12 t)

/-- The `asV14` getter. -/
def asV14 (t : Transforms Meta) : MetadataVersioned Meta → MVResult Meta :=
  getVersion (MetaVersion.v 14) t.toV14 (asV13 t)

/-- The `asLatest` getter (no `#assertVersion`, previous accessor `asV14`). -/
def asLatest (t : Transforms Meta) : MetadataVersioned Meta → MVResult Meta :=
  getVersion MetaVersion.latest t.toLatest (asV14 t)

/-- Dispatch on the dynamically built accessor name `asV9` .. `asV14`
(`this[asVN]` in the source); no other numbered accessor exists. -/
def asVnum (t : Transforms Meta) (n : Nat) : MetadataVersioned Meta → MVResult Meta :=
  if n = 9 then asV9
  else if n = 10 then asV10 t
  else if n = 11 then asV11 t
  else if n = 12 then asV12 t
  else if n = 13 then asV13 t
  else if n = 14 then asV14 t
  else fun _ => Except.error "no such accessor"

/-- The one-step transform whose target is version `n` (identity outside
`10 .. 14`; those indices never occur). -/
def stepFn (t : Transforms Meta) (n : Nat) : Meta → Nat → Meta :=
  if n = 10 then t.toV10
  else if n = 11 then t.toV11
  else if n = 12 then t.toV12
  else if n = 13 then t.toV13
  else if n = 14 then t.toV14
  else fun x _ => x

/-- Specification-side chain: the embedded value migrated by the one-step
transforms `V → V+1 → ... → n` (the value itself for `n ≤ V`). -/
def chain (t : Transforms Meta) (V : Nat) (meta : Meta) : Nat → Meta
  | 0 => meta
  | n + 1 => if n + 1 ≤ V then meta else stepFn t (n + 1) (chain t V meta n) V

/-- The cache contents after the migrations up to target `k` have run:
one entry per version in `V+1 .. k`, in insertion order. -/
def cacheUpTo (t : Transforms Meta) (V : Nat) (meta : Meta) : Nat → List (MetaVersion × Meta)
  | 0 => []
  | k + 1 =>
    if k + 1 ≤ V then []
    else cacheUpTo t V meta k ++ [(MetaVersion.v (k + 1), chain t V meta (k + 1))]

/-- The transform log of a request of target `n` on a cache filled up to
`k`: the target versions `k+1 .. n` (empty when `n ≤ k`). -/
def stepLog (k n : Nat) : List MetaVersion :=
  (List.range' (k + 1) (n - k)).map MetaVersion.v

variable {J : Type}

/-- Model of `super.toJSON()` of the wrapping struct: it serializes the embedded
struct fields (`magicNumber` and the original version-tagged `metadata`
union), with an abstract serialization `jm` of the payload. -/
def superToJSON (jm : Meta → J) (m : MetadataVersioned Meta) : Nat × J :=
  (m.magicNumber, jm m.metadata)

/-- Model of `toJSON()`: evaluate `this.asLatest` (required so the alias overrides
of the terminal transform have been applied), then `super.toJSON()`. -/
def toJSON (t : Transforms Meta) (jm : Meta → J) (m : MetadataVersioned Meta) :
    Except String ((Nat × J) × MetadataVersioned Meta × List MetaVersion) :=
  match asLatest t m with
  | Except.error e => Except.error e
  | Except.ok (_, m1, log) => Except.ok (superToJSON jm m1, m1, log)

/-- Model of `asCallsOnly`: a brand-new `MetadataVersioned` built from the original
magic number and `createType(MetadataAll, toCallsOnly(registry, this.asLatest),
LATEST_VERSION)` — the calls-only projection `co` of `asLatest`, wrapped as a
version-14 union — with the fresh instance cache of the constructor. -/
def asCallsOnly (t : Transforms Meta) (co : Meta → Meta) (m : MetadataVersioned Meta) :
    Except String (MetadataVersioned Meta × MetadataVersioned Meta × List MetaVersion) :=
  match asLatest t m with
  | Except.error e => Except.error e
  | Except.ok (lat, m1, log) => Except.ok (⟨m.magicNumber, co lat, 14, []⟩, m1, log)

/-- Concrete transform instantiation used to evaluate the theorems on
closed inputs: the payload is the list of the targets reached so far. -/
def traceT : Transforms (List Nat) where
  toV10 := fun m _ => m ++ [10]
  toV11 := fun m _ => m ++ [11]
  toV12 := fun m _ => m ++ [12]
  toV13 := fun m _ => m ++ [13]
  toV14 := fun m _ => m ++ [14]
  toLatest := fun m _ => m ++ [100]

/-- Concrete calls-only projection for closed evaluation. -/
def traceCallsOnly (m : List Nat) : List Nat :=
  m ++ [7]

end MetadataVersionedModel

namespace StorageKeyModel

/-- The hasher kinds of the metadata (`AllHashers`). -/
inductive HasherKind where
  | Blake2_128
  | Blake2_128Concat
  | Blake2_256
  | Identity
  | Twox128
  | Twox256
  | Twox64Concat
  deriving DecidableEq, Repr

/-- Model of `HASHER_MAP`: hasher type to `[initialHashLength, canDecodeKey]`. -/
def HASHER_MAP : HasherKind → Nat × Bool
  | HasherKind.Blake2_128 => (16, false)
  | HasherKind.Blake2_128Concat => (16, true)
  | HasherKind.Blake2_256 => (32, false)
  | HasherKind.Identity => (0, true)
  | HasherKind.Twox128 => (16, false)
  | HasherKind.Twox256 => (32, false)
  | HasherKind.Twox64Concat => (8, true)

/-- A decoded codec value: either a `Raw` fixed-byte value or a value of a
lookup type together with the bytes its decoding consumed
(`encodedLength` is their number). -/
inductive CodecVal where
  | raw (bytes : List Nat)
  | val (typeId : Nat) (enc : List Nat)
  deriving DecidableEq, Repr

/-- The `encodedLength` of a decoded value. -/
def CodecVal.encodedLength : CodecVal → Nat
  | CodecVal.raw b => b.length
  | CodecVal.val _ b => b.length

/-- The storage-entry type (`StorageEntryTypeLatest`): `Plain(valueId)` or
`Map {hashers, key, value}`, the ids being lookup ids of the schema type
table. -/
inductive StorageEntryType where
  | plain (valueId : Nat)
  | map (hashers : List HasherKind) (keyId valueId : Nat)
  deriving DecidableEq, Repr

/-- The slice of `StorageEntryMetadataLatest` the key decoder reads. -/
structure StorageEntryMeta where
  type : StorageEntryType
  deriving DecidableEq, Repr

/-- The registry operations the storage-key decoder consumes:
`createType(registry.createLookupType(id), bytes)` (which may fail on
malformed bytes or an unresolvable type), `lookup.getSiType(id).def.asTuple`
(which fails when the key type is not a tuple), and `getSiName`. -/
structure Registry where
  decodeLookup : Nat → List Nat → Except String CodecVal
  getSiTypeTuple : Nat → Except String (List Nat)
  getSiName : Nat → String

/-- Model of `createType(createLookupType(type), bytes)` where the lookup id may be
missing (an out-of-range `keys[i]` in the caller): that fails. -/
def decodeLookupOpt (registry : Registry) : Option Nat → List Nat → Except String CodecVal
  | some tid, b => registry.decodeLookup tid b
  | none, _ => Except.error "createLookupType: no such lookup id"

/-- Model of `unwrapStorageSi`. -/
def unwrapStorageSi : StorageEntryType → Nat
  | StorageEntryType.plain t => t
  | StorageEntryType.map _ _ v => v

/-- Model of `unwrapStorageType`. -/
def unwrapStorageType (registry : Registry) (t : StorageEntryType)
    (isOptional : Bool) : String :=
  let outputType := registry.getSiName (unwrapStorageSi t)
  if isOptional then "Option<" ++ outputType ++ ">" else outputType

/-- One iteration of the `reduce` inside `decodeHashers`; the accumulator
carries the mutable `offset` together with the `result` array. -/
def hasherStep (registry : Registry) (value : List Nat)
    (acc : Nat × List CodecVal) (ht : HasherKind × Option Nat) :
    Except String (Nat × List CodecVal) :=
  let hashLen := (HASHER_MAP ht.1).1
  let canDecode := (HASHER_MAP ht.1).2
  match (if canDecode then decodeLookupOpt registry ht.2 (value.drop (acc.1 + hashLen))
         else Except.ok (CodecVal.raw ((value.drop acc.1).take hashLen))) with
  | Except.error e => Except.error e
  | Except.ok decoded =>
    Except.ok (acc.1 + hashLen + (if canDecode then decoded.encodedLength else 0),
      acc.2 ++ [decoded])

/-- Model of `decodeHashers`: fold the hasher/value-type pairs over the raw key
bytes; the offset starts at 32, after
`xxhashAsU8a(prefix, 128) ++ xxhashAsU8a(method, 128)`. -/
def decodeHashers (registry : Registry) (value : List Nat)
    (hashers : List (HasherKind × Option Nat)) : Except String (List CodecVal) :=
  Except.map Prod.snd (List.foldlM (hasherStep registry value) (32, []) hashers)

/-- Model of `hashers.map((h, i) => [h, keys[i]])`. -/
def pairKeys (hashers : List HasherKind) (keys : List Nat) :
    List (HasherKind × Option Nat) :=
  hashers.enum.map (fun p => (p.2, keys[p.1]?))

/-- Model of `decodeArgsFromMeta`: no descriptor or a plain entry yields no
arguments; a map entry pairs its hashers with the key type (a tuple
decomposition when there is more than one hasher) and decodes. -/
def decodeArgsFromMeta (registry : Registry) (value : List Nat)
    (meta : Option StorageEntryMeta) : Except String (List CodecVal) :=
  match meta with
  | none => Except.ok []
  | some m =>
    match m.type with
    | StorageEntryType.plain _ => Except.ok []
    | StorageEntryType.map hashers keyId _ =>
      match (if hashers.length = 1 then Except.ok [keyId]
             else registry.getSiTypeTuple keyId) with
      | Except.error e => Except.error e
      | Except.ok keys => decodeHashers registry value (pairKeys hashers keys)

/-- The `StorageKey` state: the raw key bytes (its `Bytes` content, bare
form as produced by `this.toU8a(true)`), the decoded argument list
(`none` while `_args` is still unassigned), the optional entry descriptor,
the output type, and the `_method` / `_section` labels. -/
structure StorageKey where
  bytes : List Nat
  args : Option (List CodecVal)
  meta : Option StorageEntryMeta
  outputType : String
  method : Option String
  sectionName : Option String
  deriving DecidableEq, Repr

/-- Model of `StorageKey.setMeta`: record the descriptor, `method || this._method`,
`section || this._section`, refresh the output type when a descriptor is
present, then re-derive the argument list from the raw bytes, swallowing
(`// ignore...`) any decode error — which leaves `_args` untouched. -/
def StorageKey.setMeta (registry : Registry) (k : StorageKey)
    (meta : Option StorageEntryMeta) (sect meth : Option String) : StorageKey :=
  let k1 : StorageKey :=
    { k with
      meta := meta
      method := meth.orElse (fun _ => k.method)
      sectionName := sect.orElse (fun _ => k.sectionName)
      outputType := match meta with
        | some m => unwrapStorageType registry m.type false
        | none => k.outputType }
  match decodeArgsFromMeta registry k1.bytes k1.meta with
  | Except.ok a => { k1 with args := some a }
  | Except.error _ => k1

/-- Model of `StorageKey` construction from raw key bytes plus an optional entry
descriptor with its labels: `_args` starts unassigned and the constructor
ends in `this.setMeta(...)`. -/
def StorageKey.ofMeta (registry : Registry) (bytes : List Nat)
    (meta : Option StorageEntryMeta) (sect meth : Option String) : StorageKey :=
  StorageKey.setMeta registry
    { bytes := bytes
      args := none
      meta := none
      outputType := match meta with
        | some m => unwrapStorageType registry m.type false
        | none => "Raw"
      method := none
      sectionName := none }
    meta sect meth

/-- Model of `StorageKey.is(key)`. -/
def StorageKey.is (self key : StorageKey) : Bool :=
  decide (key.sectionName = self.sectionName) && decide (key.method = self.method)

/-- Specification-side decoder, phrased as the spec describes it: a single
offset is threaded from byte 32 onward; for each hasher in declared order a
non-decodable kind advances the offset by exactly its hash length and
contributes the opaque raw slice of that length, while a decodable kind
decodes the declared value type starting right after the hash-length prefix
and advances by the hash length plus the decoded value's `encodedLength`.
Each argument is recorded with the offset at which its block starts. -/
def specDecodeArgs (registry : Registry) (value : List Nat) :
    Nat → List (HasherKind × Option Nat) → Except String (List (Nat × CodecVal))
  | _, [] => Except.ok []
  | offset, ht :: rest =>
    let hashLen := (HASHER_MAP ht.1).1
    if (HASHER_MAP ht.1).2 then
      match decodeLookupOpt registry ht.2 (value.drop (offset + hashLen)) with
      | Except.error e => Except.error e
      | Except.ok decoded =>
        match specDecodeArgs registry value (offset + hashLen + decoded.encodedLength) rest with
        | Except.error e => Except.error e
        | Except.ok more => Except.ok ((offset, decoded) :: more)
    else
      match specDecodeArgs registry value (offset + hashLen) rest with
      | Except.error e => Except.error e
      | Except.ok more =>
        Except.ok ((offset, CodecVal.raw ((value.drop offset).take hashLen)) :: more)

/-- Concrete registry for closed evaluation: a lookup value consumes one
byte; every tuple request yields the pair of lookup ids `(1, 2)`. -/
def evalRegistry : Registry where
  decodeLookup := fun tid b => Except.ok (CodecVal.val tid (b.take 1))
  getSiTypeTuple := fun _ => Except.ok [1, 2]
  getSiName := fun _ => "T"

/-- Concrete registry whose lookup decoding always fails. -/
def failRegistry : Registry where
  decodeLookup := fun _ _ => Except.error "createType: cannot decode"
  getSiTypeTuple := fun _ => Except.ok [1, 2]
  getSiName := fun _ => "T"

end StorageKeyModel

namespace MetadataVersionedModel

variable {Meta : Type} {J : Type}

theorem chain_of_le (t : Transforms Meta) (V : Nat) (meta : Meta) (n : Nat) (h : n ≤ V) :
    chain t V meta n = meta := by
  cases n with
  | zero => rfl
  | succ n => simp [chain, h]

theorem chain_succ_of_gt (t : Transforms Meta) (V : Nat) (meta : Meta) (n : Nat)
    (h : V < n + 1) : chain t V meta (n + 1) = stepFn t (n + 1) (chain t V meta n) V := by
  simp [chain, Nat.not_le.mpr h]

theorem cacheUpTo_self (t : Transforms Meta) (V : Nat) (meta : Meta) :
    cacheUpTo t V meta V = [] := by
  cases V with
  | zero => rfl
  | succ k => simp [cacheUpTo]

theorem cacheGet_nil (k : MetaVersion) : cacheGet ([] : List (MetaVersion × Meta)) k = none := rfl

theorem cacheGet_append (c1 c2 : List (MetaVersion × Meta)) (k : MetaVersion) :
    cacheGet (c1 ++ c2) k = (cacheGet c1 k).or (cacheGet c2 k) := by
  unfold cacheGet
  rw [List.find?_append]
  cases List.find? (fun p => decide (p.1 = k)) c1 <;> simp [Option.or]

theorem cacheGet_singleton (a : MetaVersion × Meta) (k : MetaVersion) :
    cacheGet [a] k = if a.1 = k then some a.2 else none := by
  by_cases h : a.1 = k <;> simp [cacheGet, List.find?, h]

theorem cacheGet_cacheUpTo (t : Transforms Meta) (V : Nat) (meta : Meta) (k j : Nat) :
    cacheGet (cacheUpTo t V meta k) (MetaVersion.v j) =
      if V < j ∧ j ≤ k then some (chain t V meta j) else none := by
  induction k with
  | zero =>
    rw [if_neg (by omega)]
    rfl
  | succ k ih =>
    by_cases hV : k + 1 ≤ V
    · rw [if_neg (by omega)]
      simp [cacheUpTo, hV, cacheGet]
    · simp only [cacheUpTo, if_neg hV]
      rw [cacheGet_append, ih, cacheGet_singleton]
      simp only [MetaVersion.v.injEq]
      by_cases hjk : V < j ∧ j ≤ k
      · simp [hjk, Option.or, show V < j ∧ j ≤ k + 1 by omega]
      · by_cases hj : k + 1 = j
        · subst hj
          simp [hjk, Option.or, show V < k + 1 ∧ k + 1 ≤ k + 1 by omega]
        · simp [hjk, hj, Option.or, show ¬(V < j ∧ j ≤ k + 1) by omega]

theorem cacheGet_cacheUpTo_latest (t : Transforms Meta) (V : Nat) (meta : Meta) (k : Nat) :
    cacheGet (cacheUpTo t V meta k) MetaVersion.latest = none := by
  induction k with
  | zero => rfl
  | succ k ih =>
    by_cases hV : k + 1 ≤ V
    · simp [cacheUpTo, hV, cacheGet]
    · simp only [cacheUpTo, if_neg hV]
      rw [cacheGet_append, ih, cacheGet_singleton]
      simp [Option.or]

theorem cacheGet_append_latest (t : Transforms Meta) (V : Nat) (meta : Meta) (k : Nat)
    (w : Meta) :
    cacheGet (cacheUpTo t V meta k ++ [(MetaVersion.latest, w)]) MetaVersion.latest = some w := by
  rw [cacheGet_append, cacheGet_cacheUpTo_latest, cacheGet_singleton]
  simp [Option.or]

theorem stepLog_of_le {k n : Nat} (h : n ≤ k) : stepLog k n = [] := by
  simp [stepLog, Nat.sub_eq_zero_of_le h]

theorem stepLog_concat {k n : Nat} (h : k ≤ n) :
    stepLog k n ++ [MetaVersion.v (n + 1)] = stepLog k (n + 1) := by
  unfold stepLog
  rw [show n + 1 - k = (n - k) + 1 by omega, List.range'_1_concat,
    show k + 1 + (n - k) = n + 1 by omega, List.map_append]
  rfl

theorem stepLog_one {j : Nat} (h : 1 ≤ j) : stepLog (j - 1) j = [MetaVersion.v j] := by
  unfold stepLog
  rw [show j - (j - 1) = 1 by omega, List.range'_one, show j - 1 + 1 = j by omega]
  rfl

theorem stepLog_nodup (k n : Nat) : (stepLog k n).Nodup := by
  refine List.Nodup.map ?_ (List.nodup_range' _ _)
  intro a b hab
  simpa [MetaVersion.v.injEq] using hab

/-- The accessor `asVnum` at a successor version `10 .. 14` is `#getVersion` of that
version over the previous accessor. -/
theorem asVnum_succ_eq (t : Transforms Meta) (n : Nat) (h1 : 9 ≤ n) (h2 : n ≤ 13) :
    asVnum t (n + 1) = getVersion (MetaVersion.v (n + 1)) (stepFn t (n + 1)) (asVnum t n) := by
  interval_cases n <;> rfl

/-- Requesting the instance's own version returns the embedded payload and
touches neither the cache nor any transform. -/
theorem asVnum_self (t : Transforms Meta) (V : Nat) (h9 : 9 ≤ V) (h14 : V ≤ 14)
    (m : MetadataVersioned Meta) (hm : m.metaIndex = V) :
    asVnum t V m = Except.ok (m.metadata, m, []) := by
  interval_cases V <;>
    simp [asVnum, asV9, asV10, asV11, asV12, asV13, asV14, getVersion, assertVersion, hm]

/-- Main characterization of a numbered request: starting from the cache
state `cacheUpTo k` (`V ≤ k`), requesting version `n` (`V ≤ n ≤ 14`) yields
the migration chain value, extends the cache to `max k n`, and runs exactly
the transforms `k+1 .. n`. -/
theorem asVnum_run (t : Transforms Meta) (mg : Nat) (meta : Meta) (V : Nat)
    (h9 : 9 ≤ V) (h14V : V ≤ 14) :
    ∀ n, V ≤ n → n ≤ 14 → ∀ k, V ≤ k →
      asVnum t n ⟨mg, meta, V, cacheUpTo t V meta k⟩ =
        Except.ok (chain t V meta n,
          ⟨mg, meta, V, cacheUpTo t V meta (max k n)⟩, stepLog k n) := by
  intro n hVn
  induction n, hVn using Nat.le_induction with
  | base =>
    intro _ k hVk
    rw [asVnum_self t V h9 h14V ⟨mg, meta, V, cacheUpTo t V meta k⟩ rfl,
      chain_of_le t V meta V (le_refl V), Nat.max_eq_left hVk, stepLog_of_le hVk]
  | succ n hVn ih =>
    intro h14 k hVk
    rw [asVnum_succ_eq t n (by omega) (by omega)]
    have ha : assertVersion (⟨mg, meta, V, cacheUpTo t V meta k⟩ :
        MetadataVersioned Meta) (n + 1) = Except.ok false := by
      unfold assertVersion
      simp only [if_pos (show V ≤ n + 1 by omega)]
      rw [decide_eq_false (by omega)]
    by_cases hk : n + 1 ≤ k
    · have hc : cacheGet (cacheUpTo t V meta k) (MetaVersion.v (n + 1)) =
          some (chain t V meta (n + 1)) := by
        rw [cacheGet_cacheUpTo, if_pos (by omega)]
      simp only [getVersion, ha, hc, Bool.false_eq_true, if_false]
      rw [Nat.max_eq_left (by omega), stepLog_of_le (by omega)]
    · have hc : cacheGet (cacheUpTo t V meta k) (MetaVersion.v (n + 1)) = none := by
        rw [cacheGet_cacheUpTo, if_neg (by omega)]
      have hp := ih (by omega) k hVk
      simp only [getVersion, ha, hc, hp, Bool.false_eq_true, if_false]
      rw [Nat.max_eq_right (show k ≤ n by omega)]
      rw [← chain_succ_of_gt t V meta n (by omega)]
      rw [show cacheUpTo t V meta n ++ [(MetaVersion.v (n + 1), chain t V meta (n + 1))] =
          cacheUpTo t V meta (n + 1) by
        simp [cacheUpTo, show ¬(n + 1 ≤ V) by omega]]
      rw [Nat.max_eq_right (show k ≤ n + 1 by omega), stepLog_concat (show k ≤ n by omega)]

/-- Running `asLatest` on a freshly constructed instance: the `asV14` value is
computed (filling the cache up to 14), `toLatest` is applied to it, and the
result is appended to the cache under the `latest` key. -/
theorem asLatest_fresh (t : Transforms Meta) (mg : Nat) (meta : Meta) (V : Nat)
    (h9 : 9 ≤ V) (h14 : V ≤ 14) :
    asLatest t ⟨mg, meta, V, []⟩ =
      Except.ok (t.toLatest (chain t V meta 14) V,
        ⟨mg, meta, V, cacheUpTo t V meta 14 ++
          [(MetaVersion.latest, t.toLatest (chain t V meta 14) V)]⟩,
        stepLog V 14 ++ [MetaVersion.latest]) := by
  have hp : asV14 t (⟨mg, meta, V, []⟩ : MetadataVersioned Meta) =
      Except.ok (chain t V meta 14, ⟨mg, meta, V, cacheUpTo t V meta 14⟩, stepLog V 14) := by
    have h := asVnum_run t mg meta V h9 h14 14 (by omega) (by omega) V (le_refl V)
    rw [cacheUpTo_self t V meta, Nat.max_eq_right (by omega)] at h
    exact h
  unfold asLatest
  simp only [getVersion, cacheGet_nil, hp, Bool.false_eq_true, if_false]

/-- Running `asLatest` on an instance whose cache already holds a `latest` entry
returns that entry, unchanged state, no transform run. -/
theorem asLatest_cached (t : Transforms Meta) (mg : Nat) (meta : Meta) (V : Nat) (w : Meta) :
    asLatest t ⟨mg, meta, V, cacheUpTo t V meta 14 ++ [(MetaVersion.latest, w)]⟩ =
      Except.ok (w,
        ⟨mg, meta, V, cacheUpTo t V meta 14 ++ [(MetaVersion.latest, w)]⟩, []) := by
  unfold asLatest
  simp only [getVersion, cacheGet_append_latest, Bool.false_eq_true, if_false]

/-- Claim C1: for an instance with source version `V` and a target
`V < n ≤ 14`, the accessor `asVn` equals the chain of one-step transforms
`V → V+1 → ... → n` applied to the embedded value, runs each of those
transforms exactly once (the log lists each target once) while caching
every intermediate result; a second request of the same accessor returns
the cached value and runs no transform; and stepwise migration (requesting
`V+1`, `V+2`, ..., `n` in turn, each on the state left by the previous
request) yields the same value and the same final cache as the direct
request. -/
theorem migration_chain_cached_idempotent (t : Transforms Meta) (mg : Nat) (meta : Meta)
    (V n : Nat) (h9 : 9 ≤ V) (hVn : V < n) (h14 : n ≤ 14) :
    asVnum t n ⟨mg, meta, V, []⟩ =
        Except.ok (chain t V meta n, ⟨mg, meta, V, cacheUpTo t V meta n⟩, stepLog V n)
    ∧ asVnum t n ⟨mg, meta, V, cacheUpTo t V meta n⟩ =
        Except.ok (chain t V meta n, ⟨mg, meta, V, cacheUpTo t V meta n⟩, [])
    ∧ (∀ j, V < j → j ≤ n →
        asVnum t j ⟨mg, meta, V, cacheUpTo t V meta (j - 1)⟩ =
          Except.ok (chain t V meta j, ⟨mg, meta, V, cacheUpTo t V meta j⟩,
            [MetaVersion.v j]))
    ∧ (stepLog V n).Nodup := by
  have h14V : V ≤ 14 := by omega
  refine ⟨?_, ?_, ?_, stepLog_nodup V n⟩
  · have h := asVnum_run t mg meta V h9 h14V n (by omega) h14 V (le_refl V)
    rw [cacheUpTo_self t V meta, Nat.max_eq_right (by omega)] at h
    exact h
  · have h := asVnum_run t mg meta V h9 h14V n (by omega) h14 n (by omega)
    rw [Nat.max_self, stepLog_of_le (le_refl n)] at h
    exact h
  · intro j hVj hjn
    have h := asVnum_run t mg meta V h9 h14V j (by omega) (by omega) (j - 1) (by omega)
    rw [Nat.max_eq_right (by omega), stepLog_one (by omega)] at h
    exact h

/-- Closed instantiation of claim C1: source version 9, target 12, with the
trace transforms. -/
theorem migration_chain_cached_idempotent_witness :
    9 ≤ 9 ∧ 9 < 12 ∧ 12 ≤ 14 ∧
    (asVnum traceT 12 ⟨0, [], 9, []⟩ =
        Except.ok (chain traceT 9 [] 12, ⟨0, [], 9, cacheUpTo traceT 9 [] 12⟩, stepLog 9 12)
    ∧ asVnum traceT 12 ⟨0, [], 9, cacheUpTo traceT 9 [] 12⟩ =
        Except.ok (chain traceT 9 [] 12, ⟨0, [], 9, cacheUpTo traceT 9 [] 12⟩, [])
    ∧ (∀ j, 9 < j → j ≤ 12 →
        asVnum traceT j ⟨0, [], 9, cacheUpTo traceT 9 [] (j - 1)⟩ =
          Except.ok (chain traceT 9 [] j, ⟨0, [], 9, cacheUpTo traceT 9 [] j⟩,
            [MetaVersion.v j]))
    ∧ (stepLog 9 12).Nodup) :=
  ⟨by decide, by decide, by decide,
    migration_chain_cached_idempotent traceT 0 [] 9 12 (by decide) (by decide) (by decide)⟩

/-- Claim C3: requesting a numbered version strictly below the source
version fails with the version-downgrade error; requesting the source
version itself returns the embedded payload directly, with an arbitrary
cache state that is left untouched (neither consulted nor populated: the
result does not depend on it) and with no transform run. -/
theorem downgrade_error_and_identity (t : Transforms Meta) (mg : Nat) (meta : Meta)
    (V : Nat) (c : List (MetaVersion × Meta)) (n : Nat) (h9 : 9 ≤ n) (h14 : n ≤ 14) :
    (n < V → asVnum t n ⟨mg, meta, V, c⟩ = Except.error (downgradeMsg V n))
    ∧ (n = V → asVnum t n ⟨mg, meta, V, c⟩ = Except.ok (meta, ⟨mg, meta, V, c⟩, [])) := by
  constructor
  · intro hlt
    have he : assertVersion (⟨mg, meta, V, c⟩ : MetadataVersioned Meta) n =
        Except.error (downgradeMsg V n) := by
      unfold assertVersion
      rw [if_neg (by simpa using (by omega : ¬V ≤ n))]
    interval_cases n <;>
      simp [asVnum, asV9, asV10, asV11, asV12, asV13, asV14, getVersion, he]
  · intro he
    subst he
    exact asVnum_self t n h9 h14 ⟨mg, meta, n, c⟩ rfl

/-- Closed instantiation of claim C3: source version 12, request of
version 10. -/
theorem downgrade_error_and_identity_witness :
    9 ≤ 10 ∧ 10 ≤ 14 ∧
    ((10 < 12 → asVnum traceT 10 ⟨0, [], 12, []⟩ = Except.error (downgradeMsg 12 10))
    ∧ (10 = 12 → asVnum traceT 10 ⟨0, [], 12, []⟩ = Except.ok ([], ⟨0, [], 12, []⟩, []))) :=
  ⟨by decide, by decide,
    downgrade_error_and_identity traceT 0 [] 12 [] 10 (by decide) (by decide)⟩

/-- Claim C4: `asLatest` always applies the terminal `toLatest`
alias-normalization transform to the `asV14` value — also when the source
already is version 14, in which case that value is the embedded value
itself (`chain t 14 meta 14 = meta`) — and stores the result in the cache
under the `latest` key. -/
theorem asLatest_always_normalizes (t : Transforms Meta) (mg : Nat) (meta : Meta)
    (V : Nat) (h9 : 9 ≤ V) (h14 : V ≤ 14) :
    asLatest t ⟨mg, meta, V, []⟩ =
      Except.ok (t.toLatest (chain t V meta 14) V,
        ⟨mg, meta, V, cacheUpTo t V meta 14 ++
          [(MetaVersion.latest, t.toLatest (chain t V meta 14) V)]⟩,
        stepLog V 14 ++ [MetaVersion.latest])
    ∧ cacheGet (cacheUpTo t V meta 14 ++
        [(MetaVersion.latest, t.toLatest (chain t V meta 14) V)]) MetaVersion.latest =
      some (t.toLatest (chain t V meta 14) V) :=
  ⟨asLatest_fresh t mg meta V h9 h14, cacheGet_append_latest t V meta 14 _⟩

/-- Closed instantiation of claim C4: source version 14 — `toLatest` still
runs and is logged. -/
theorem asLatest_always_normalizes_witness :
    9 ≤ 14 ∧ 14 ≤ 14 ∧
    (asLatest traceT ⟨0, [], 14, []⟩ =
      Except.ok (traceT.toLatest (chain traceT 14 [] 14) 14,
        ⟨0, [], 14, cacheUpTo traceT 14 [] 14 ++
          [(MetaVersion.latest, traceT.toLatest (chain traceT 14 [] 14) 14)]⟩,
        stepLog 14 14 ++ [MetaVersion.latest])
    ∧ cacheGet (cacheUpTo traceT 14 [] 14 ++
        [(MetaVersion.latest, traceT.toLatest (chain traceT 14 [] 14) 14)])
        MetaVersion.latest =
      some (traceT.toLatest (chain traceT 14 [] 14) 14)) :=
  ⟨by decide, by decide, asLatest_always_normalizes traceT 0 [] 14 (by decide) (by decide)⟩

/-- Claim C8: `toJSON` first forces the materialization of `asLatest` —
running the terminal alias-normalization transform and populating the
`latest` cache entry — and only then serializes through the wrapped
struct's `toJSON`. -/
theorem toJSON_forces_asLatest (t : Transforms Meta) (jm : Meta → J) (mg : Nat)
    (meta : Meta) (V : Nat) (h9 : 9 ≤ V) (h14 : V ≤ 14) :
    toJSON t jm ⟨mg, meta, V, []⟩ =
      Except.ok ((mg, jm meta),
        ⟨mg, meta, V, cacheUpTo t V meta 14 ++
          [(MetaVersion.latest, t.toLatest (chain t V meta 14) V)]⟩,
        stepLog V 14 ++ [MetaVersion.latest])
    ∧ cacheGet (cacheUpTo t V meta 14 ++
        [(MetaVersion.latest, t.toLatest (chain t V meta 14) V)]) MetaVersion.latest =
      some (t.toLatest (chain t V meta 14) V) := by
  refine ⟨?_, cacheGet_append_latest t V meta 14 _⟩
  unfold toJSON
  rw [asLatest_fresh t mg meta V h9 h14]
  rfl

/-- Closed instantiation of claim C8: source version 9, serialization by
list length. -/
theorem toJSON_forces_asLatest_witness :
    9 ≤ 9 ∧ 9 ≤ 14 ∧
    (toJSON traceT List.length ⟨0, [], 9, []⟩ =
      Except.ok ((0, List.length ([] : List Nat)),
        ⟨0, [], 9, cacheUpTo traceT 9 [] 14 ++
          [(MetaVersion.latest, traceT.toLatest (chain traceT 9 [] 14) 9)]⟩,
        stepLog 9 14 ++ [MetaVersion.latest])
    ∧ cacheGet (cacheUpTo traceT 9 [] 14 ++
        [(MetaVersion.latest, traceT.toLatest (chain traceT 9 [] 14) 9)])
        MetaVersion.latest =
      some (traceT.toLatest (chain traceT 9 [] 14) 9)) :=
  ⟨by decide, by decide,
    toJSON_forces_asLatest traceT List.length 0 [] 9 (by decide) (by decide)⟩

/-- Claim C10: `asCallsOnly` yields a brand-new `MetadataVersioned` — fresh
empty conversion cache, the original magic number, embedded metadata
wrapped at the latest numbered version 14 —; its result is not cached (a
second access reconstructs the same fresh instance and runs no further
transform), and the original instance keeps its magic number, payload and
version, its conversion cache having gained the entries of forcing
`asLatest` (ending in the `latest` entry). -/
theorem asCallsOnly_fresh (t : Transforms Meta) (co : Meta → Meta) (mg : Nat)
    (meta : Meta) (V : Nat) (h9 : 9 ≤ V) (h14 : V ≤ 14) :
    asCallsOnly t co ⟨mg, meta, V, []⟩ =
      Except.ok (⟨mg, co (t.toLatest (chain t V meta 14) V), 14, []⟩,
        ⟨mg, meta, V, cacheUpTo t V meta 14 ++
          [(MetaVersion.latest, t.toLatest (chain t V meta 14) V)]⟩,
        stepLog V 14 ++ [MetaVersion.latest])
    ∧ asCallsOnly t co ⟨mg, meta, V, cacheUpTo t V meta 14 ++
          [(MetaVersion.latest, t.toLatest (chain t V meta 14) V)]⟩ =
      Except.ok (⟨mg, co (t.toLatest (chain t V meta 14) V), 14, []⟩,
        ⟨mg, meta, V, cacheUpTo t V meta 14 ++
          [(MetaVersion.latest, t.toLatest (chain t V meta 14) V)]⟩, []) := by
  constructor
  · unfold asCallsOnly
    rw [asLatest_fresh t mg meta V h9 h14]
  · unfold asCallsOnly
    rw [asLatest_cached t mg meta V (t.toLatest (chain t V meta 14) V)]

/-- Closed instantiation of claim C10: source version 13. -/
theorem asCallsOnly_fresh_witness :
    9 ≤ 13 ∧ 13 ≤ 14 ∧
    (asCallsOnly traceT traceCallsOnly ⟨0, [], 13, []⟩ =
      Except.ok (⟨0, traceCallsOnly (traceT.toLatest (chain traceT 13 [] 14) 13), 14, []⟩,
        ⟨0, [], 13, cacheUpTo traceT 13 [] 14 ++
          [(MetaVersion.latest, traceT.toLatest (chain traceT 13 [] 14) 13)]⟩,
        stepLog 13 14 ++ [MetaVersion.latest])
    ∧ asCallsOnly traceT traceCallsOnly ⟨0, [], 13, cacheUpTo traceT 13 [] 14 ++
          [(MetaVersion.latest, traceT.toLatest (chain traceT 13 [] 14) 13)]⟩ =
      Except.ok (⟨0, traceCallsOnly (traceT.toLatest (chain traceT 13 [] 14) 13), 14, []⟩,
        ⟨0, [], 13, cacheUpTo traceT 13 [] 14 ++
          [(MetaVersion.latest, traceT.toLatest (chain traceT 13 [] 14) 13)]⟩, [])) :=
  ⟨by decide, by decide,
    asCallsOnly_fresh traceT traceCallsOnly 0 [] 13 (by decide) (by decide)⟩

end MetadataVersionedModel

namespace StorageKeyModel

/-- The fold of `decodeHashers` started at any offset and accumulator
agrees with the specification-shaped decoder started at that offset: same
error, or same arguments appended to the accumulator (for some final
offset). -/
theorem foldlM_hasherStep (registry : Registry) (value : List Nat) :
    ∀ (hashers : List (HasherKind × Option Nat)) (offset : Nat) (acc : List CodecVal),
      ∃ endOff : Nat,
        List.foldlM (hasherStep registry value) (offset, acc) hashers =
          Except.map (fun l => (endOff, acc ++ l.map Prod.snd))
            (specDecodeArgs registry value offset hashers) := by
  intro hashers
  induction hashers with
  | nil =>
    intro offset acc
    exact ⟨offset, by simp [specDecodeArgs, Except.map, Pure.pure, Except.pure]⟩
  | cons ht rest ih =>
    intro offset acc
    rw [List.foldlM_cons]
    cases hcd : (HASHER_MAP ht.1).2
    · simp only [hasherStep, hcd, Bool.false_eq_true, if_false, specDecodeArgs]
      obtain ⟨endOff, h⟩ :=
        ih (offset + (HASHER_MAP ht.1).1)
          (acc ++ [CodecVal.raw ((value.drop offset).take (HASHER_MAP ht.1).1)])
      refine ⟨endOff, ?_⟩
      cases hs : specDecodeArgs registry value (offset + (HASHER_MAP ht.1).1) rest with
      | error e =>
        rw [hs] at h
        simpa [hs, Except.bind, Bind.bind, Except.map, Nat.add_zero] using h
      | ok more =>
        rw [hs] at h
        simpa [hs, Except.bind, Bind.bind, Except.map, Nat.add_zero] using h
    · simp only [hasherStep, hcd, if_true, specDecodeArgs]
      cases hdec : decodeLookupOpt registry ht.2 (value.drop (offset + (HASHER_MAP ht.1).1)) with
      | error e =>
        exact ⟨0, by simp [hdec, Except.bind, Bind.bind, Except.map]⟩
      | ok decoded =>
        obtain ⟨endOff, h⟩ :=
          ih (offset + (HASHER_MAP ht.1).1 + decoded.encodedLength) (acc ++ [decoded])
        refine ⟨endOff, ?_⟩
        cases hs : specDecodeArgs registry value
            (offset + (HASHER_MAP ht.1).1 + decoded.encodedLength) rest with
        | error e =>
          rw [hs] at h
          simpa [hs, hdec, Except.bind, Bind.bind, Except.map] using h
        | ok more =>
          rw [hs] at h
          simpa [hs, hdec, Except.bind, Bind.bind, Except.map] using h

/-- Every argument offset the specification-shaped decoder records is at
least the starting offset. -/
theorem specDecodeArgs_offset_le (registry : Registry) (value : List Nat) :
    ∀ (hashers : List (HasherKind × Option Nat)) (offset : Nat)
      (l : List (Nat × CodecVal)),
      specDecodeArgs registry value offset hashers = Except.ok l →
      ∀ p ∈ l, offset ≤ p.1 := by
  intro hashers
  induction hashers with
  | nil =>
    intro offset l h p hp
    simp only [specDecodeArgs] at h
    cases h
    simp at hp
  | cons ht rest ih =>
    intro offset l h p hp
    simp only [specDecodeArgs] at h
    split at h
    · split at h
      · cases h
      · split at h
        · cases h
        · next more heq =>
          cases h
          rcases List.mem_cons.mp hp with hph | hpm
          · subst hph
            exact le_refl _
          · have := ih _ _ heq p hpm
            omega
    · split at h
      · cases h
      · next more heq =>
        cases h
        rcases List.mem_cons.mp hp with hph | hpm
        · subst hph
          exact le_refl _
        · have := ih _ _ heq p hpm
          omega

end StorageKeyModel

namespace StorageKeyModel

/-- Claim C2: `decodeHashers` threads a single offset starting at byte 32
(never decoding inside the 32-byte module/field hash prefix) and, for each
hasher in declared order, a non-decodable hasher advances the offset by
exactly its hash length and contributes the opaque raw slice of that
length, while a decodable hasher decodes the declared value type starting
right after the hash-length prefix and advances the offset by the hash
length plus the decoded value's `encodedLength` — stated as: the source
fold agrees with the specification-shaped decoder started at offset 32,
and every argument offset that decoder records is at least 32. -/
theorem decodeHashers_offset_spec (registry : Registry) (value : List Nat)
    (hashers : List (HasherKind × Option Nat)) :
    decodeHashers registry value hashers =
      Except.map (fun l => l.map Prod.snd) (specDecodeArgs registry value 32 hashers)
    ∧ ∀ l, specDecodeArgs registry value 32 hashers = Except.ok l →
        ∀ p ∈ l, 32 ≤ p.1 := by
  constructor
  · obtain ⟨endOff, h⟩ := foldlM_hasherStep registry value hashers 32 []
    unfold decodeHashers
    rw [h]
    cases specDecodeArgs registry value 32 hashers <;> simp [Except.map]
  · intro l h
    exact specDecodeArgs_offset_le registry value hashers 32 l h

/-- Closed instantiation of claim C2: one decodable and one opaque hasher
over fifty raw bytes. -/
theorem decodeHashers_offset_spec_witness :
    decodeHashers evalRegistry (List.range 50)
        [(HasherKind.Twox64Concat, some 5), (HasherKind.Twox128, none)] =
      Except.map (fun l => l.map Prod.snd)
        (specDecodeArgs evalRegistry (List.range 50) 32
          [(HasherKind.Twox64Concat, some 5), (HasherKind.Twox128, none)])
    ∧ ∀ l, specDecodeArgs evalRegistry (List.range 50) 32
          [(HasherKind.Twox64Concat, some 5), (HasherKind.Twox128, none)] = Except.ok l →
        ∀ p ∈ l, 32 ≤ p.1 :=
  decodeHashers_offset_spec evalRegistry (List.range 50)
    [(HasherKind.Twox64Concat, some 5), (HasherKind.Twox128, none)]

/-- Claim C6: the hasher table maps Identity to (0, decodable),
Twox64Concat to (8, decodable), Blake2_128Concat to (16, decodable),
Twox128 to (16, opaque), Blake2_128 to (16, opaque), Twox256 to
(32, opaque) and Blake2_256 to (32, opaque) — exactly the Concat-suffixed
hashers and Identity are decodable. -/
theorem hasher_map_table :
    HASHER_MAP HasherKind.Identity = (0, true)
    ∧ HASHER_MAP HasherKind.Twox64Concat = (8, true)
    ∧ HASHER_MAP HasherKind.Blake2_128Concat = (16, true)
    ∧ HASHER_MAP HasherKind.Twox128 = (16, false)
    ∧ HASHER_MAP HasherKind.Blake2_128 = (16, false)
    ∧ HASHER_MAP HasherKind.Twox256 = (32, false)
    ∧ HASHER_MAP HasherKind.Blake2_256 = (32, false)
    ∧ ∀ h : HasherKind, (HASHER_MAP h).2 = true ↔
        (h = HasherKind.Identity ∨ h = HasherKind.Twox64Concat ∨
          h = HasherKind.Blake2_128Concat) := by
  refine ⟨rfl, rfl, rfl, rfl, rfl, rfl, rfl, ?_⟩
  intro h
  cases h <;> simp [HASHER_MAP]

/-- Claim C7: with no descriptor, or a plain (non-map) descriptor, the
derived argument list is empty (also at the `StorageKey` level, where the
constructor then assigns the empty list); for a map entry with more than
one hasher the declared key type is decomposed as a tuple and the i-th
hasher is paired with the i-th tuple element, in declared order. -/
theorem decode_args_shape (registry : Registry) (value : List Nat) :
    decodeArgsFromMeta registry value none = Except.ok []
    ∧ (∀ tid, decodeArgsFromMeta registry value
        (some ⟨StorageEntryType.plain tid⟩) = Except.ok [])
    ∧ (∀ b sect meth, (StorageKey.ofMeta registry b none sect meth).args = some [])
    ∧ (∀ b sect meth tid,
        (StorageKey.ofMeta registry b (some ⟨StorageEntryType.plain tid⟩) sect meth).args =
          some [])
    ∧ (∀ hashers keyId valId keys, 1 < hashers.length →
        registry.getSiTypeTuple keyId = Except.ok keys →
        decodeArgsFromMeta registry value
            (some ⟨StorageEntryType.map hashers keyId valId⟩) =
          decodeHashers registry value (pairKeys hashers keys)
        ∧ (pairKeys hashers keys).length = hashers.length
        ∧ ∀ (i : Nat) (h : HasherKind), hashers[i]? = some h →
            (pairKeys hashers keys)[i]? = some (h, keys[i]?)) := by
  refine ⟨rfl, fun tid => rfl, fun b sect meth => rfl, fun b sect meth tid => rfl, ?_⟩
  intro hashers keyId valId keys hlen hkeys
  refine ⟨?_, ?_, ?_⟩
  · simp only [decodeArgsFromMeta]
    rw [if_neg (by omega), hkeys]
  · simp [pairKeys, List.enum_length]
  · intro i h hi
    simp [pairKeys, List.getElem?_map, List.getElem?_enum, hi]

/-- Closed instantiation of claim C7: a two-hasher map whose key type is
the tuple `(1, 2)` of `evalRegistry`. -/
theorem decode_args_shape_witness :
    1 < 2 ∧
    (decodeArgsFromMeta evalRegistry [3, 4] none = Except.ok []
    ∧ (∀ tid, decodeArgsFromMeta evalRegistry [3, 4]
        (some ⟨StorageEntryType.plain tid⟩) = Except.ok [])
    ∧ (∀ b sect meth, (StorageKey.ofMeta evalRegistry b none sect meth).args = some [])
    ∧ (∀ b sect meth tid,
        (StorageKey.ofMeta evalRegistry b (some ⟨StorageEntryType.plain tid⟩)
          sect meth).args = some [])
    ∧ (∀ hashers keyId valId keys, 1 < hashers.length →
        evalRegistry.getSiTypeTuple keyId = Except.ok keys →
        decodeArgsFromMeta evalRegistry [3, 4]
            (some ⟨StorageEntryType.map hashers keyId valId⟩) =
          decodeHashers evalRegistry [3, 4] (pairKeys hashers keys)
        ∧ (pairKeys hashers keys).length = hashers.length
        ∧ ∀ (i : Nat) (h : HasherKind), hashers[i]? = some h →
            (pairKeys hashers keys)[i]? = some (h, keys[i]?))) :=
  ⟨by decide, decode_args_shape evalRegistry [3, 4]⟩

/-- Claim C5 (amended): a decode failure while deriving the argument list
never escapes `StorageKey` construction or `setMeta` (both are total
functions); the raw key bytes and the method/section labels are set and
retained exactly as on success; but on failure the argument list is left
as it was — unassigned (`none`) for a fresh construction, the previously
decoded list for a later `setMeta` — rather than becoming the empty
list. -/
theorem storage_degrade_amended (registry : Registry) (k : StorageKey)
    (meta : Option StorageEntryMeta) (sect meth : Option String) :
    (StorageKey.setMeta registry k meta sect meth).bytes = k.bytes
    ∧ (StorageKey.setMeta registry k meta sect meth).method =
        meth.orElse (fun _ => k.method)
    ∧ (StorageKey.setMeta registry k meta sect meth).sectionName =
        sect.orElse (fun _ => k.sectionName)
    ∧ (∀ e, decodeArgsFromMeta registry k.bytes meta = Except.error e →
        (StorageKey.setMeta registry k meta sect meth).args = k.args)
    ∧ (∀ b e, decodeArgsFromMeta registry b meta = Except.error e →
        (StorageKey.ofMeta registry b meta sect meth).args = none) := by
  refine ⟨?_, ?_, ?_, ?_, ?_⟩
  · simp only [StorageKey.setMeta]
    cases hd : decodeArgsFromMeta registry k.bytes meta <;> simp [hd]
  · simp only [StorageKey.setMeta]
    cases hd : decodeArgsFromMeta registry k.bytes meta <;> simp [hd]
  · simp only [StorageKey.setMeta]
    cases hd : decodeArgsFromMeta registry k.bytes meta <;> simp [hd]
  · intro e he
    simp only [StorageKey.setMeta]
    simp [he]
  · intro b e he
    simp only [StorageKey.ofMeta, StorageKey.setMeta]
    simp [he]

/-- Closed instantiation of the amended claim C5, at the failing registry
and a map descriptor. -/
theorem storage_degrade_amended_witness :
    (StorageKey.setMeta failRegistry ⟨[0, 1, 2], none, none, "Raw", none, none⟩
        (some ⟨StorageEntryType.map [HasherKind.Blake2_128Concat] 4 6⟩)
        (some "balances") (some "account")).bytes =
      (⟨[0, 1, 2], none, none, "Raw", none, none⟩ : StorageKey).bytes
    ∧ (StorageKey.setMeta failRegistry ⟨[0, 1, 2], none, none, "Raw", none, none⟩
        (some ⟨StorageEntryType.map [HasherKind.Blake2_128Concat] 4 6⟩)
        (some "balances") (some "account")).method =
      (some "account").orElse
        (fun _ => (⟨[0, 1, 2], none, none, "Raw", none, none⟩ : StorageKey).method)
    ∧ (StorageKey.setMeta failRegistry ⟨[0, 1, 2], none, none, "Raw", none, none⟩
        (some ⟨StorageEntryType.map [HasherKind.Blake2_128Concat] 4 6⟩)
        (some "balances") (some "account")).sectionName =
      (some "balances").orElse
        (fun _ => (⟨[0, 1, 2], none, none, "Raw", none, none⟩ : StorageKey).sectionName)
    ∧ (∀ e, decodeArgsFromMeta failRegistry
          (⟨[0, 1, 2], none, none, "Raw", none, none⟩ : StorageKey).bytes
          (some ⟨StorageEntryType.map [HasherKind.Blake2_128Concat] 4 6⟩) =
          Except.error e →
        (StorageKey.setMeta failRegistry ⟨[0, 1, 2], none, none, "Raw", none, none⟩
          (some ⟨StorageEntryType.map [HasherKind.Blake2_128Concat] 4 6⟩)
          (some "balances") (some "account")).args =
        (⟨[0, 1, 2], none, none, "Raw", none, none⟩ : StorageKey).args)
    ∧ (∀ b e, decodeArgsFromMeta failRegistry b
          (some ⟨StorageEntryType.map [HasherKind.Blake2_128Concat] 4 6⟩) =
          Except.error e →
        (StorageKey.ofMeta failRegistry b
          (some ⟨StorageEntryType.map [HasherKind.Blake2_128Concat] 4 6⟩)
          (some "balances") (some "account")).args = none) :=
  storage_degrade_amended failRegistry ⟨[0, 1, 2], none, none, "Raw", none, none⟩
    (some ⟨StorageEntryType.map [HasherKind.Blake2_128Concat] 4 6⟩)
    (some "balances") (some "account")

/-- Claim C5 as stated fails on the code: with a map descriptor carrying a
single `Blake2_128Concat` hasher and a registry whose type decoding fails,
construction succeeds and retains bytes, method and section, but the
argument list ends up unassigned (`none`), not degraded to the empty
list. -/
theorem storage_degrade_counterexample :
    decodeArgsFromMeta failRegistry [0, 1, 2]
        (some ⟨StorageEntryType.map [HasherKind.Blake2_128Concat] 4 6⟩) =
      Except.error "createType: cannot decode"
    ∧ (StorageKey.ofMeta failRegistry [0, 1, 2]
        (some ⟨StorageEntryType.map [HasherKind.Blake2_128Concat] 4 6⟩)
        (some "balances") (some "account")).args = none
    ∧ ¬ (StorageKey.ofMeta failRegistry [0, 1, 2]
        (some ⟨StorageEntryType.map [HasherKind.Blake2_128Concat] 4 6⟩)
        (some "balances") (some "account")).args = some []
    ∧ (StorageKey.ofMeta failRegistry [0, 1, 2]
        (some ⟨StorageEntryType.map [HasherKind.Blake2_128Concat] 4 6⟩)
        (some "balances") (some "account")).bytes = [0, 1, 2]
    ∧ (StorageKey.ofMeta failRegistry [0, 1, 2]
        (some ⟨StorageEntryType.map [HasherKind.Blake2_128Concat] 4 6⟩)
        (some "balances") (some "account")).method = some "account"
    ∧ (StorageKey.ofMeta failRegistry [0, 1, 2]
        (some ⟨StorageEntryType.map [HasherKind.Blake2_128Concat] 4 6⟩)
        (some "balances") (some "account")).sectionName = some "balances" :=
  ⟨rfl, rfl, by decide, rfl, rfl, rfl⟩

/-- Claim C9: `StorageKey.is` compares only the section and method labels —
it is `true` exactly when both agree — and the raw bytes and argument
lists of either key play no role in the outcome. -/
theorem is_compares_section_and_method (k1 k2 : StorageKey) :
    (StorageKey.is k1 k2 = true ↔
      (k2.sectionName = k1.sectionName ∧ k2.method = k1.method))
    ∧ ∀ b1 a1 b2 a2,
        StorageKey.is { k1 with bytes := b1, args := a1 }
          { k2 with bytes := b2, args := a2 } = StorageKey.is k1 k2 := by
  constructor
  · simp [StorageKey.is]
  · intro b1 a1 b2 a2
    rfl

end StorageKeyModel
